import Mathlib

/-!
Verification development for the `punto` in-vehicle telemetry dashboard
(Rust sources under `src/`): a shallow embedding of the event model
(`main.rs`), the OBD-II driver (`obd.rs`), the persistence engine
(`buffer.rs`), the gpsd producer (`gpsd.rs`), and proofs about them.

Conventions of the embedding:
* Rust `usize`/`isize` are modelled as `Nat`/`Int`; where the source can
  wrap or overflow, this is made explicit (wrapping is `% 2^64`, and an
  arithmetic overflow that Rust's checked semantics turns into a panic is
  an `Option.none`).
* `f64` arithmetic is modelled over `ℚ`; every place where this matters to
  a proved statement only involves values on which the two agree.
* Thread I/O (serial replies, the clock, elapsed time) is supplied by
  explicit environment/oracle arguments.
-/

namespace Punto

/-- The `Info` event enum of `main.rs` (lines 27-61).  `f64` latitude and
longitude are modelled as `Option ℚ` with `none` standing for the `NaN`
"no fix" sentinel. -/
inductive Info where
  | Usr (synced : Bool)
  | Gps (t ts : Nat) (alt track speed : Int)
  | Pos (t : Nat) (lat lon : Option ℚ)
  | Obd (t : Nat) (pid : Nat) (val extra extra2 : Int)
  | Imu (t : Nat) (mag acc : Int × Int × Int) (rot : Int × Int)
  deriving DecidableEq, Repr

/-- `obd.rs` parameter address constants (lines 17-50). -/
def RPM : Nat := 0x10c
def THROT : Nat := 0x111
def ELOAD : Nat := 0x104
def SPEED : Nat := 0x10d
def AIRTEMP : Nat := 0x10f
def ECTEMP : Nat := 0x105
def EGR : Nat := 0x12c
def EEGR : Nat := 0x12d
def BPRESS : Nat := 0x133
def FUEL : Nat := 0x12f
def FSTATUS : Nat := 0x103
def SFTRIM1 : Nat := 0x106
def LFTRIM1 : Nat := 0x107
def SFTRIM2 : Nat := 0x108
def LFTRIM2 : Nat := 0x109
def TIMING : Nat := 0x10e
def INTAKE : Nat := 0x10f
def MAFLOW : Nat := 0x110
def FPRESSD : Nat := 0x123
def FPRESSM : Nat := 0x122
def EVAP : Nat := 0x12e
def CATA1S1 : Nat := 0x13c
def CATA2S1 : Nat := 0x13d
def CATA1S2 : Nat := 0x13e
def CATA2S2 : Nat := 0x13f
def RUNTIME : Nat := 0x11f
def MIL : Nat := 0x121
def WARMUPS : Nat := 0x130
def MILSTAT : Nat := 0x101
def MAXPIDS : Nat := 0x180
def BATTERY : Nat := 0x181
def TROUBLE : Nat := 0x182
def CAPA : Nat := 0x183

/-! ## Capability discovery scan (`obd.rs` lines 184-207)

The scan iterates `c` over `0..MAXPIDS-1`; at each group base
(`c & 0x1f == 0 && c >= 0x100`) it requests a 4-byte bitmap via
`obd.pid(c, 4)` (supplied here by the oracle `reads : Nat → Option Nat`;
`none` is a failed read, in which case the running word `cap` is left as
it was), then stores `((cap >> (0x1f - idx)) & 1) == 1` into
`capa[c + 1]`.  The capability array is modelled as a function
`Nat → Bool` (initially all `false`); the `CAPA` progress event sent on
each successful read carries no state and is not modelled. -/

/-- One iteration `c` of the discovery loop: state is the pair
(capability array, running bitmap word `cap`). -/
def capaScanStep (reads : Nat → Option Nat) (st : (Nat → Bool) × Nat) (c : Nat) :
    (Nat → Bool) × Nat :=
  let idx := c &&& 0x1f
  let cap := if idx = 0 ∧ 0x100 ≤ c then (reads c).getD st.2 else st.2
  (fun a => if a = c + 1 then ((cap >>> (0x1f - idx)) &&& 1) == 1 else st.1 a, cap)

/-- The whole discovery scan: fold the loop body over `c ∈ 0..MAXPIDS-1`
starting from an all-`false` capability array and `cap = 0`. -/
def capaScan (reads : Nat → Option Nat) : (Nat → Bool) × Nat :=
  (List.range (MAXPIDS - 1)).foldl (capaScanStep reads) (fun _ => false, 0)

/-- The running bitmap word `cap` after the first `n` iterations of the
discovery loop. -/
def capAt (reads : Nat → Option Nat) : Nat → Nat
  | 0 => 0
  | c + 1 =>
    if c &&& 0x1f = 0 ∧ 0x100 ≤ c then (reads c).getD (capAt reads c) else capAt reads c

/-- Closed form of the capability array after `n` iterations: address `a`
was last written by iteration `c = a - 1` (if any), using the bit position
`0x1f - ((a-1) & 0x1f)` of the word current at that iteration. -/
def capaSpec (reads : Nat → Option Nat) (n : Nat) : Nat → Bool :=
  fun a =>
    if 1 ≤ a ∧ a ≤ n then
      ((capAt reads a >>> (0x1f - ((a - 1) &&& 0x1f))) &&& 1) == 1
    else false

theorem capaScanStep_snd (reads : Nat → Option Nat) (st : (Nat → Bool) × Nat) (c : Nat) :
    (capaScanStep reads st c).2 =
      if c &&& 0x1f = 0 ∧ 0x100 ≤ c then (reads c).getD st.2 else st.2 := rfl

theorem capaScanStep_fst (reads : Nat → Option Nat) (st : (Nat → Bool) × Nat) (c a : Nat) :
    (capaScanStep reads st c).1 a =
      if a = c + 1 then
        (((capaScanStep reads st c).2 >>> (0x1f - (c &&& 0x1f))) &&& 1) == 1
      else st.1 a := rfl

theorem capaScan_fold (reads : Nat → Option Nat) (n : Nat) :
    (List.range n).foldl (capaScanStep reads) (fun _ => false, 0) =
      (capaSpec reads n, capAt reads n) := by
  induction n with
  | zero =>
    refine Prod.ext ?_ rfl
    funext a
    rw [List.range_zero, List.foldl_nil]
    simp only [capaSpec]
    rw [if_neg (by omega : ¬(1 ≤ a ∧ a ≤ 0))]
  | succ n ih =>
    rw [List.range_succ, List.foldl_append, ih, List.foldl_cons, List.foldl_nil]
    have hsnd : (capaScanStep reads (capaSpec reads n, capAt reads n) n).2 =
        capAt reads (n + 1) := by
      rw [capaScanStep_snd]; rfl
    refine Prod.ext ?_ hsnd
    funext a
    rw [capaScanStep_fst, hsnd]
    by_cases ha : a = n + 1
    · subst ha
      rw [if_pos rfl]
      simp only [capaSpec, Nat.add_sub_cancel]
      rw [if_pos (by omega : 1 ≤ n + 1 ∧ n + 1 ≤ n + 1)]
    · rw [if_neg ha]
      simp only [capaSpec]
      by_cases h1 : 1 ≤ a ∧ a ≤ n
      · rw [if_pos h1, if_pos (⟨h1.1, by omega⟩ : 1 ≤ a ∧ a ≤ n + 1)]
      · rw [if_neg h1, if_neg (by omega : ¬(1 ≤ a ∧ a ≤ n + 1))]

theorem capaScan_eq (reads : Nat → Option Nat) :
    capaScan reads = (capaSpec reads (MAXPIDS - 1), capAt reads (MAXPIDS - 1)) :=
  capaScan_fold reads (MAXPIDS - 1)

/-- Within a group, the running word does not change after the base
iteration: for `base` a multiple of 32 with `0x100 ≤ base` and `j ≤ 31`,
`capAt (base + j + 1) = (reads base).getD (capAt base)`. -/
theorem capAt_in_group (reads : Nat → Option Nat) (base : Nat)
    (hb : base % 32 = 0) (h1 : 0x100 ≤ base) :
    ∀ j, j ≤ 31 → capAt reads (base + j + 1) = (reads base).getD (capAt reads base) := by
  intro j hj
  induction j with
  | zero =>
    have hidx : base &&& 0x1f = 0 := by
      have : base &&& 0x1f = base % 32 := Nat.and_pow_two_sub_one_eq_mod base 5
      rw [this, hb]
    simp [capAt, hidx, h1]
  | succ j ih =>
    have hidx : (base + j + 1) &&& 0x1f = j + 1 := by
      have h32 : (base + j + 1) &&& 0x1f = (base + j + 1) % 32 :=
        Nat.and_pow_two_sub_one_eq_mod (base + j + 1) 5
      rw [h32]
      have : (base + j + 1) % 32 = (j + 1) % 32 := by
        conv_lhs => rw [Nat.add_assoc]
        rw [Nat.add_mod, hb]
        simp
      rw [this, Nat.mod_eq_of_lt (by omega)]
    have : capAt reads (base + (j + 1) + 1) = capAt reads (base + j + 1) := by
      show capAt reads (base + j + 1 + 1) = capAt reads (base + j + 1)
      simp [capAt, hidx]
    rw [this, ih (by omega)]

/-- Common form of the written capability bits: for a group base
(`base % 32 = 0`, `0x100 ≤ base`), entry `base + j + 1` (for `j ≤ 31`,
within the array) holds bit `31 - j` of the word current in the group,
namely `(reads base).getD (capAt reads base)`. -/
theorem capaScan_group_bit (reads : Nat → Option Nat) (base j : Nat)
    (hb : base % 32 = 0) (hlo : 0x100 ≤ base) (hj : j ≤ 31)
    (hin : base + j + 1 < 0x180) :
    (capaScan reads).1 (base + j + 1) =
      ((((reads base).getD (capAt reads base) >>> (0x1f - j)) &&& 1) == 1) := by
  have hcap : capAt reads (base + j + 1) = (reads base).getD (capAt reads base) :=
    capAt_in_group reads base hb hlo j hj
  rw [capaScan_eq]
  show capaSpec reads (MAXPIDS - 1) (base + j + 1) = _
  have hM : MAXPIDS - 1 = 383 := rfl
  simp only [capaSpec, hM, Nat.add_sub_cancel]
  rw [if_pos (by omega : 1 ≤ base + j + 1 ∧ base + j + 1 ≤ 383)]
  have hand : (base + j) &&& 0x1f = j := by
    rw [Nat.and_pow_two_sub_one_eq_mod (base + j) 5]
    omega
  rw [hand, hcap]

/-- C1, counterexample: read the group at base `0x100` successfully with
bitmap word `0x80000000` (bit `i = 31` set, all others clear).  The claim
says bit `31` marks address `0x100 + (31 - 31) = 0x100` as capable, but
the scan leaves `capa[0x100]` false (it sets `capa[0x101]` instead: the
decode is shifted one address up). -/
def c1reads : Nat → Option Nat := fun c => if c = 0x100 then some 0x80000000 else none

set_option maxRecDepth 8192 in
theorem capaScan_claim_counterexample :
    c1reads 0x100 = some 0x80000000 ∧
    (((0x80000000 >>> 31) &&& 1) == 1) = true ∧
    (capaScan c1reads).1 (0x100 + (31 - 31)) = false ∧
    (capaScan c1reads).1 (0x100 + 1) = true := by
  refine ⟨rfl, by decide, ?_, ?_⟩ <;> decide

/-- C1 (amended): after the discovery scan, for every group base that is
a multiple of 32 with `0x100 ≤ base < 0x180`: (a) if the 4-byte bitmap
read at `base` succeeded with word `w`, then bit `i` of `w` (`i = 0`
least significant) marks address `base + (32 - i)` — one address above
the position the original claim states — for every `i ≤ 31` with
`base + (32 - i) < 0x180` (bit 0 of the last group falls outside the
loop); (b) if the read at `base` failed, the group's entries are decoded
from the most recently successfully read word `capAt reads base`
(initially zero), not left at their previous values. -/
theorem capaScan_decode (reads : Nat → Option Nat) :
    (∀ base w i, base % 32 = 0 → 0x100 ≤ base → reads base = some w →
      i ≤ 31 → base + (32 - i) < 0x180 →
      (capaScan reads).1 (base + (32 - i)) = (((w >>> i) &&& 1) == 1)) ∧
    (∀ base i, base % 32 = 0 → 0x100 ≤ base → reads base = none →
      i ≤ 31 → base + (32 - i) < 0x180 →
      (capaScan reads).1 (base + (32 - i)) =
        (((capAt reads base >>> i) &&& 1) == 1)) := by
  constructor
  · intro base w i hb hlo hr hi hin
    have ha : base + (32 - i) = base + (31 - i) + 1 := by omega
    rw [ha, capaScan_group_bit reads base (31 - i) hb hlo (by omega) (by omega), hr]
    have : 0x1f - (31 - i) = i := by omega
    rw [this]
    rfl
  · intro base i hb hlo hr hi hin
    have ha : base + (32 - i) = base + (31 - i) + 1 := by omega
    rw [ha, capaScan_group_bit reads base (31 - i) hb hlo (by omega) (by omega), hr]
    have : 0x1f - (31 - i) = i := by omega
    rw [this]
    rfl

theorem capaScan_decode_witness :
    (capaScan c1reads).1 (0x100 + (32 - 31)) = (((0x80000000 >>> 31) &&& 1) == 1) :=
  (capaScan_decode c1reads).1 0x100 0x80000000 31 (by decide) (by decide) rfl
    (by decide) (by decide)

/-! ## PID reply decoding (`obd.rs` lines 315-343)

`Obd::pid` sends a 4-hex-digit command, then validates the reply string
returned by `get_pid_val`: exact length `expected * 2`, hex-parseable as
`u32`, and (for 1- and 2-byte requests) below the byte-count range.
`get_pid_val`'s outcome is the `Except String String` argument.  Reply
strings are ASCII by construction (`get_reply` only keeps bytes 33-126),
so Rust's byte length coincides with the character count used here. -/

/-- Value of one hex digit, as accepted by `u32::from_str_radix(_, 16)`
(a model of `char::to_digit(16)` over the ASCII code point). -/
def hexDigit? (c : Char) : Option Nat :=
  if 48 ≤ c.toNat ∧ c.toNat ≤ 57 then some (c.toNat - 48)
  else if 97 ≤ c.toNat ∧ c.toNat ≤ 102 then some (c.toNat - 87)
  else if 65 ≤ c.toNat ∧ c.toNat ≤ 70 then some (c.toNat - 55)
  else none

/-- Left-to-right checked accumulation of hex digits. -/
def hexAcc : Nat → List Char → Option Nat
  | acc, [] => some acc
  | acc, c :: cs =>
    match hexDigit? c with
    | none => none
    | some d => hexAcc (acc * 16 + d) cs

/-- Models `u32::from_str_radix(s, 16)`: optional leading `'+'`, at least
one digit, all digits hex, value below `2^32` (the per-step checked
accumulation of the Rust parser overflows exactly when the final value
is out of range, since the accumulator grows monotonically). -/
def fromStrRadix16 (s : String) : Option Nat :=
  let cs := if s.data.head? = some '+' then s.data.tail else s.data
  if cs.isEmpty then none
  else
    match hexAcc 0 cs with
    | none => none
    | some v => if v < 2 ^ 32 then some v else none

/-- `Obd::pid` (obd.rs lines 315-343), applied to the `get_pid_val`
result for the 4-hex-digit command of address `p`. -/
def pid (p expected : Nat) : Except String String → Except String Nat
  | .error e => .error e
  | .ok s =>
    if s.length ≠ expected * 2 then .error "invalid pid reply size"
    else
      match fromStrRadix16 s with
      | none => .error "invalid pid reply format"
      | some x =>
        if (expected = 1 ∧ 0x100 ≤ x) ∨ (expected = 2 ∧ 0x10000 ≤ x) then
          .error "invalid pid reply value"
        else .ok x

/-- The integer a list of hex digits encodes (most significant first). -/
def hexValOf (cs : List Char) : Nat :=
  cs.foldl (fun a c => a * 16 + (hexDigit? c).getD 0) 0

theorem hexDigit?_getD_lt (c : Char) : (hexDigit? c).getD 0 < 16 := by
  unfold hexDigit?
  split
  case isTrue h => simp only [Option.getD_some]; omega
  case isFalse h =>
    split
    case isTrue h2 => simp only [Option.getD_some]; omega
    case isFalse h2 =>
      split
      case isTrue h3 => simp only [Option.getD_some]; omega
      case isFalse h3 => simp only [Option.getD_none]; omega

theorem hexAcc_of_all_digits :
    ∀ (cs : List Char) (acc : Nat), (∀ c ∈ cs, (hexDigit? c).isSome) →
      hexAcc acc cs = some (cs.foldl (fun a c => a * 16 + (hexDigit? c).getD 0) acc)
  | [], acc, _ => rfl
  | c :: cs, acc, h => by
    have hc : (hexDigit? c).isSome := h c (List.mem_cons_self c cs)
    obtain ⟨d, hd⟩ := Option.isSome_iff_exists.mp hc
    simp only [hexAcc, hd, List.foldl_cons, Option.getD_some]
    exact hexAcc_of_all_digits cs (acc * 16 + d) (fun x hx => h x (List.mem_cons_of_mem c hx))

theorem hex_foldl_lt :
    ∀ (cs : List Char) (acc : Nat),
      cs.foldl (fun a c => a * 16 + (hexDigit? c).getD 0) acc < (acc + 1) * 16 ^ cs.length
  | [], acc => by simpa using Nat.lt_succ_self acc
  | c :: cs, acc => by
    have hd : (hexDigit? c).getD 0 < 16 := hexDigit?_getD_lt c
    have ih := hex_foldl_lt cs (acc * 16 + (hexDigit? c).getD 0)
    calc (c :: cs).foldl (fun a c => a * 16 + (hexDigit? c).getD 0) acc
        = cs.foldl (fun a c => a * 16 + (hexDigit? c).getD 0)
            (acc * 16 + (hexDigit? c).getD 0) := rfl
      _ < (acc * 16 + (hexDigit? c).getD 0 + 1) * 16 ^ cs.length := ih
      _ ≤ ((acc + 1) * 16) * 16 ^ cs.length := by
          have : acc * 16 + (hexDigit? c).getD 0 + 1 ≤ (acc + 1) * 16 := by omega
          exact Nat.mul_le_mul_right _ this
      _ = (acc + 1) * 16 ^ (c :: cs).length := by
          rw [List.length_cons, Nat.mul_assoc, ← Nat.pow_succ']

theorem hexValOf_lt (cs : List Char) : hexValOf cs < 16 ^ cs.length := by
  have := hex_foldl_lt cs 0
  simpa [hexValOf] using this

/-- C4: for `expected ∈ {1,2,4}` (the byte counts the driver requests),
a reply of exactly `expected*2` hex digits decodes to exactly the integer
those digits encode, which automatically fits in `expected` bytes; any
length deviation is an error, and an upstream read error propagates as an
error — never a truncated or garbage value. -/
theorem pid_exact_decoding (p e : Nat) (he : e = 1 ∨ e = 2 ∨ e = 4) :
    (∀ s : String, s.length = e * 2 → (∀ c ∈ s.data, (hexDigit? c).isSome) →
      pid p e (.ok s) = .ok (hexValOf s.data) ∧ hexValOf s.data < 2 ^ (8 * e)) ∧
    (∀ s : String, s.length ≠ e * 2 → pid p e (.ok s) = .error "invalid pid reply size") ∧
    (∀ msg, pid p e (.error msg) = .error msg) := by
  refine ⟨?_, ?_, fun msg => rfl⟩
  · intro s hlen hdig
    have hlen' : s.data.length = e * 2 := hlen
    have hne : s.data ≠ [] := by
      intro h
      rw [h] at hlen'
      simp only [List.length_nil] at hlen'
      rcases he with h1 | h1 | h1 <;> omega
    obtain ⟨c, cs, hcons⟩ := List.exists_cons_of_ne_nil hne
    have hhead : s.data.head? ≠ some '+' := by
      rw [hcons]
      intro h
      have hc' : c = '+' := by simpa using h
      subst hc'
      have := hdig '+' (by rw [hcons]; exact List.mem_cons_self _ _)
      simp [hexDigit?] at this
    have hbound : hexValOf s.data < 2 ^ (8 * e) := by
      have h16 : hexValOf s.data < 16 ^ s.data.length := hexValOf_lt s.data
      rw [hlen'] at h16
      have h216 : (16 : Nat) ^ (e * 2) = 2 ^ (8 * e) := by
        have h4 : (16 : Nat) = 2 ^ 4 := by norm_num
        rw [h4, ← Nat.pow_mul]
        congr 1
        omega
      rwa [h216] at h16
    refine ⟨?_, hbound⟩
    have hparse : fromStrRadix16 s = some (hexValOf s.data) := by
      unfold fromStrRadix16
      rw [if_neg hhead]
      rw [if_neg (by simpa using hne)]
      rw [hexAcc_of_all_digits s.data 0 hdig]
      have hlt32 : s.data.foldl (fun a c => a * 16 + (hexDigit? c).getD 0) 0 < 2 ^ 32 := by
        have h32 : (2 : Nat) ^ (8 * e) ≤ 2 ^ 32 := by
          apply Nat.pow_le_pow_right (by norm_num)
          rcases he with h | h | h <;> omega
        exact Nat.lt_of_lt_of_le hbound h32
      have hlt32' : s.data.foldl (fun a c => a * 16 + (hexDigit? c).getD 0) 0 < 4294967296 := by
        norm_num at hlt32
        exact hlt32
      simp [hexValOf, hlt32']
    have hover : ¬((e = 1 ∧ 0x100 ≤ hexValOf s.data) ∨ (e = 2 ∧ 0x10000 ≤ hexValOf s.data)) := by
      rintro (⟨h1, hx⟩ | ⟨h2, hx⟩)
      · subst h1
        have : hexValOf s.data < 2 ^ 8 := by simpa using hbound
        omega
      · subst h2
        have : hexValOf s.data < 2 ^ 16 := by simpa using hbound
        omega
    simp [pid, hlen, hparse, hover]
  · intro s hlen
    simp [pid, hlen]

theorem pid_exact_decoding_witness :
    pid 0x10c 2 (.ok "1af8") = .ok (hexValOf "1af8".data) ∧
    hexValOf "1af8".data < 2 ^ (8 * 2) :=
  (pid_exact_decoding 0x10c 2 (by omega)).1 "1af8" (by decide) (by decide)

/-! ## Parameter scaling (`obd.rs` lines 283-308 and the closures of
lines 582-641)

The scaling closures run on `usize` values decoded by `pid`.  Rust's
checked arithmetic turns an unsigned underflow into a panic (a release
build would wrap instead; the underflow itself is the same either way); a
panic is modelled as `none`, so every closure is `Nat → Option Nat`.
`f64` arithmetic (`perc`, `kpa10`) is modelled exactly over `ℚ`; on the
byte-bounded inputs these receive from `pid`, the claims proved below
only depend on values where the rational and `f64` truncations agree. -/

/-- Reinterpret a `usize` as `isize` (two's complement), as in the
`result as isize` of the driver's event construction. -/
def usizeToIsize (n : Nat) : Int :=
  if n < 2 ^ 63 then (n : Int) else (n : Int) - 2 ^ 64

/-- `fn perc` (obd.rs 285-287): `((val as f64 / 2.55) * 10.0) as usize`;
`2.55 = 51/20` and the result is nonnegative, so the `as usize`
truncation is the floor. -/
def perc (val : Nat) : Nat := (Int.floor (((val : ℚ) / (51 / 20)) * 10)).toNat

/-- `fn halfdeg` (obd.rs 292-294): `((val as isize) * 128 - 64*256) as
usize` — defined two's-complement wrapping, no panic. -/
def halfdeg (val : Nat) : Nat := (((val : Int) * 128 - 64 * 256) % 2 ^ 64).toNat

/-- `fn kpa10` (obd.rs 299-301): `(val as f64 * 0.079 * 10.0) as usize`. -/
def kpa10 (val : Nat) : Nat := (Int.floor (((val : ℚ) * (79 / 1000)) * 10)).toNat

/-- `fn cata` (obd.rs 306-308): `val - 40 * 10` in `usize`; underflows
(panics) for `val < 400`. -/
def cata (val : Nat) : Option Nat :=
  if val < 40 * 10 then none else some (val - 40 * 10)

/-- `|x| x + x + x/2` (obd.rs 583, engine rpm). -/
def rpmScale (x : Nat) : Option Nat := some (x + x + x / 2)

/-- `|x| perc(x)` (throttle, load, egr, fuel trims, ...). -/
def percScale (x : Nat) : Option Nat := some (perc x)

/-- `|x| x * 10` (speed, pressures, runtime, ...). -/
def times10Scale (x : Nat) : Option Nat := some (x * 10)

/-- `|x| x` (milstat, fuel status, MAF). -/
def idScale (x : Nat) : Option Nat := some x

/-- `|x| (x - 40) * 10` (obd.rs 593-594 and 617, air/coolant/intake
temperature): the `usize` subtraction underflows for `x < 40`. -/
def tempScale (x : Nat) : Option Nat :=
  if x < 40 then none else some ((x - 40) * 10)

/-- `|x| (x - 128) * 10` (obd.rs 596, egr error): underflows for
`x < 128`. -/
def eegrScale (x : Nat) : Option Nat :=
  if x < 128 then none else some ((x - 128) * 10)

def halfdegScale (x : Nat) : Option Nat := some (halfdeg x)

def kpa10Scale (x : Nat) : Option Nat := some (kpa10 x)

def cataScale (x : Nat) : Option Nat := cata x

/-! ## Battery-voltage reply handling (`obd.rs` lines 362-379 and
522-548)

`get_pid_val` of an AT command trims every character that is neither a
decimal digit nor `'.'` from both ends of the reply and errors if nothing
remains; `mainloop` then parses the remainder as `f64` and returns (ending
the session) on either failure. -/

/-- The trim predicate `|c| (c < '0' && c != '.') || (c > '9')`. -/
def batTrimPred (c : Char) : Bool :=
  (decide (c.toNat < 48) && !(c == '.')) || decide (57 < c.toNat)

/-- `str::trim_matches`: drop matching characters from both ends. -/
def trimBat (s : String) : String :=
  String.mk (((s.data.dropWhile batTrimPred).reverse.dropWhile batTrimPred).reverse)

/-- The AT-command branch of `get_pid_val` (obd.rs 365-372). -/
def atClean (s0 : String) : Except String String :=
  let s := trimBat s0
  if s.length > 0 then .ok s else .error s

/-- Value of one decimal digit. -/
def decDigit? (c : Char) : Option Nat :=
  if 48 ≤ c.toNat ∧ c.toNat ≤ 57 then some (c.toNat - 48) else none

def decAcc : Nat → List Char → Option Nat
  | acc, [] => some acc
  | acc, c :: cs =>
    match decDigit? c with
    | none => none
    | some d => decAcc (acc * 10 + d) cs

/-- Models `str::parse::<f64>` on the plain decimal forms the serial
peripherals produce (optional sign, digits, optional fractional part);
exponent/`inf`/`nan` forms are outside the modelled grammar.  The result
is the exactly-parsed rational. -/
def parseDecL (cs0 : List Char) : Option ℚ :=
  let sgn : ℚ := if cs0.head? = some '-' then -1 else 1
  let cs := if cs0.head? = some '-' ∨ cs0.head? = some '+' then cs0.tail else cs0
  match cs with
  | [] => none
  | _ =>
    match cs.splitOn '.' with
    | [ip] => (decAcc 0 ip).map (fun v => sgn * (v : ℚ))
    | [ip, fp] =>
      if ip.isEmpty ∧ fp.isEmpty then none
      else
        match decAcc 0 ip, decAcc 0 fp with
        | some iv, some fv => some (sgn * ((iv : ℚ) + (fv : ℚ) / (10 : ℚ) ^ fp.length))
        | _, _ => none
    | _ => none

def parseDec (s : String) : Option ℚ := parseDecL s.data

/-- Truncation toward zero, as in Rust's float-to-integer `as` casts. -/
def ratTrunc (q : ℚ) : Int := if q < 0 then -Int.floor (-q) else Int.floor q

/-! ## The OBD session, `emit`, and the poll loop (`obd.rs` 103-109,
484-510, 515-577)

One poll-loop iteration is modelled as a function of an environment
oracle: `clock` supplies successive `::clock()` readings, `pidRaw` the
`get_pid_val` outcome for each parameter address (fixed per address
within the iteration), and `batteryRaw` the raw reply to `atrv`. -/

structure ObdState where
  capa : Nat → Bool
  rpm : Nat
  crash : Bool

structure Sess where
  st : ObdState
  clkIdx : Nat
  out : List Info

structure ObdEnv where
  clock : Nat → Nat
  pidRaw : Nat → Except String String
  batteryRaw : Except String String

/-- `Obd::emit` (obd.rs 484-510): skip unless capable; on a `pid` error
set `crash := (method == RPM)` and continue; on success apply the scaling
closure (`none` = checked-arithmetic panic, killing the thread), update
`rpm` if the method is RPM, and send the sample. -/
def emit (env : ObdEnv) (s : Sess) (method bytes : Nat) (apply : Nat → Option Nat) :
    Option Sess :=
  if !s.st.capa method then some s
  else
    match pid method bytes (env.pidRaw method) with
    | .error _ => some { s with st := { s.st with crash := method == RPM } }
    | .ok value =>
      match apply value with
      | none => none
      | some result =>
        let st' := if method == RPM then { s.st with rpm := result } else s.st
        some { st := st'
               clkIdx := s.clkIdx + 1
               out := s.out ++ [.Obd (env.clock s.clkIdx) method (usizeToIsize result) 0 0] }

def basicpids (env : ObdEnv) (s : Sess) : Option Sess :=
  (emit env s RPM 2 rpmScale).bind fun s =>
  (emit env s THROT 1 percScale).bind fun s =>
  (emit env s ELOAD 1 percScale).bind fun s =>
  emit env s SPEED 1 times10Scale

def temppids (env : ObdEnv) (s : Sess) : Option Sess :=
  (emit env s AIRTEMP 1 tempScale).bind fun s =>
  (emit env s ECTEMP 1 tempScale).bind fun s =>
  (emit env s EGR 1 percScale).bind fun s =>
  (emit env s EEGR 1 eegrScale).bind fun s =>
  emit env s BPRESS 1 times10Scale

def fuelpids (env : ObdEnv) (s : Sess) : Option Sess :=
  (emit env s FUEL 1 percScale).bind fun s =>
  (emit env s FSTATUS 2 idScale).bind fun s =>
  (emit env s SFTRIM1 1 percScale).bind fun s =>
  (emit env s LFTRIM1 1 percScale).bind fun s =>
  (emit env s SFTRIM2 1 percScale).bind fun s =>
  emit env s LFTRIM2 1 percScale

def extrapids (env : ObdEnv) (s : Sess) : Option Sess :=
  (emit env s TIMING 1 halfdegScale).bind fun s =>
  (emit env s INTAKE 1 tempScale).bind fun s =>
  (emit env s MAFLOW 2 idScale).bind fun s =>
  (emit env s FPRESSD 2 times10Scale).bind fun s =>
  (emit env s FPRESSM 2 kpa10Scale).bind fun s =>
  emit env s EVAP 1 percScale

def catapids (env : ObdEnv) (s : Sess) : Option Sess :=
  (emit env s CATA1S1 2 cataScale).bind fun s =>
  (emit env s CATA2S1 2 cataScale).bind fun s =>
  (emit env s CATA1S2 2 cataScale).bind fun s =>
  emit env s CATA2S2 2 cataScale

def infopids (env : ObdEnv) (s : Sess) : Option Sess :=
  (emit env s RUNTIME 2 times10Scale).bind fun s =>
  (emit env s MIL 2 times10Scale).bind fun s =>
  emit env s WARMUPS 1 times10Scale

/-- `get_pid_val("atrv")` as seen by `mainloop`: an I/O failure
propagates, otherwise the AT trim/validation runs. -/
def batteryRead (env : ObdEnv) : Except String String :=
  match env.batteryRaw with
  | .error e => .error e
  | .ok s => atClean s

inductive LoopExit where
  | batteryErr
  | batteryParse
  | crashed
  | overflow
  deriving DecidableEq, Repr

/-- The battery read of a poll iteration with `batwait == 0` (obd.rs
523-547): an I/O or trim failure, or an unparseable decimal reply, makes
`mainloop` return at once; on success the voltage sample is sent. -/
def batteryStep (env : ObdEnv) (s : Sess) : Except (LoopExit × Sess) Sess :=
  match batteryRead env with
  | .error _ => .error (.batteryErr, s)
  | .ok batstr =>
    match parseDec batstr with
    | none => .error (.batteryParse, s)
    | some v =>
      .ok { s with
              clkIdx := s.clkIdx + 1,
              out := s.out ++ [.Obd (env.clock s.clkIdx) BATTERY (ratTrunc (v * 10)) 0 0] }

/-- The fixed polling sequence of one loop iteration (obd.rs 554-575). -/
def pollSequence (env : ObdEnv) (s : Sess) : Option Sess :=
  (basicpids env s).bind fun s =>
  (temppids env s).bind fun s =>
  (basicpids env s).bind fun s =>
  (if s.st.rpm > 0 then fuelpids env s else some s).bind fun s =>
  (basicpids env s).bind fun s =>
  (if s.st.rpm > 0 then extrapids env s else some s).bind fun s =>
  (basicpids env s).bind fun s =>
  (if s.st.rpm > 0 then catapids env s else some s).bind fun s =>
  (basicpids env s).bind fun s =>
  (if s.st.rpm > 0 then infopids env s else some s)

/-- One iteration of `Obd::mainloop`'s `loop` (obd.rs 522-576).
`.error` models the function returning (or the thread dying on a checked
arithmetic panic, the `.overflow` case, which carries the state at the
start of the polling sequence); `.ok` carries the updated `batwait` and
session. -/
def mainloopIter (env : ObdEnv) (batwait : Nat) (s : Sess) :
    Except (LoopExit × Sess) (Nat × Sess) :=
  match (if batwait = 0 then batteryStep env s else .ok s) with
  | .error e => .error e
  | .ok s =>
    if s.st.crash then .error (.crashed, s)
    else
      match pollSequence env s with
      | none => .error (.overflow, s)
      | some s' => .ok ((batwait + 1) % 5, s')

/-! ## Scaling claims -/

theorem usizeToIsize_small (n : Nat) (h : n < 2 ^ 63) : usizeToIsize n = (n : Int) := by
  unfold usizeToIsize
  rw [if_pos h]

/-- Per-parameter scaling stated by the spec: RPM = raw × 1.5 truncated. -/
def spec_rpm (x : Nat) : Nat := x * 3 / 2

/-- Per-parameter scaling stated by the spec: temperature = raw − 40, in
tenths of a degree. -/
def spec_temp (x : Nat) : Int := ((x : Int) - 40) * 10

/-- Per-parameter scaling stated by the spec: percentage = raw / 2.55, in
tenths of a percent (same truncation as the code's `perc`). -/
def spec_perc (x : Nat) : Nat := (Int.floor (((x : ℚ) / (51 / 20)) * 10)).toNat

/-- Successful `emit`: capable, `pid` decoded `x`, scaling produced `r`. -/
theorem emit_ok (env : ObdEnv) (s : Sess) (method bytes : Nat)
    (apply : Nat → Option Nat) (x r : Nat)
    (hcapa : s.st.capa method = true)
    (hpid : pid method bytes (env.pidRaw method) = .ok x)
    (happ : apply x = some r) :
    emit env s method bytes apply =
      some { st := if method == RPM then { s.st with rpm := r } else s.st
             clkIdx := s.clkIdx + 1
             out := s.out ++ [.Obd (env.clock s.clkIdx) method (usizeToIsize r) 0 0] } := by
  unfold emit
  rw [hcapa, hpid]
  simp [happ]

def allCapaSess : Sess :=
  { st := { capa := fun _ => true, rpm := 0, crash := false }, clkIdx := 0, out := [] }

def c3env : ObdEnv :=
  { clock := fun _ => 0, pidRaw := fun _ => .ok "03e8", batteryRaw := .ok "12.4" }

/-- C3, counterexample: with every address capable and the dongle
replying `03e8` (raw 1000) to every PID, the RPM sample carries
`1000 + 1000 + 1000/2 = 2500` — `raw × 2.5` — while the claimed spec
scaling `raw × 1.5` truncated gives 1500. -/
theorem rpm_scaling_counterexample :
    (emit c3env allCapaSess RPM 2 rpmScale).map Sess.out =
      some [Info.Obd 0 RPM 2500 0 0] ∧
    spec_rpm 1000 = 1500 ∧ (2500 : Int) ≠ (1500 : Int) := by
  refine ⟨?_, rfl, by decide⟩
  decide

theorem perc_le_1000 (x : Nat) (hx : x ≤ 255) : perc x ≤ 1000 := by
  unfold perc
  have h51 : (0 : ℚ) < 51 / 20 := by norm_num
  have hx' : (x : ℚ) ≤ 255 := by exact_mod_cast hx
  have hq : ((x : ℚ) / (51 / 20)) * 10 ≤ 1000 := by
    calc ((x : ℚ) / (51 / 20)) * 10 ≤ ((255 : ℚ) / (51 / 20)) * 10 := by gcongr
      _ = 1000 := by norm_num
  have hfl : Int.floor (((x : ℚ) / (51 / 20)) * 10) ≤ 1000 := by
    have := Int.floor_le_floor hq
    rwa [show Int.floor ((1000 : ℚ)) = 1000 by norm_num] at this
  exact Int.toNat_le.mpr hfl

/-- C3 (amended): for every capable parameter successfully read in the
poll loop (raw value within the request's byte range), the emitted
`ObdSample` value is: for RPM, `raw × 2.5` truncated (the code computes
`x + x + x/2`, not the claimed `raw × 1.5`); for temperatures with
`raw ≥ 40`, `(raw − 40) × 10`, i.e. raw−40 in tenths of a degree (below
40 the unsigned subtraction underflows — see the C9 development); for
percentage parameters, `raw/2.55 × 10` truncated exactly as the spec
states. -/
theorem obd_scaling_amended (env : ObdEnv) (s : Sess) :
    (∀ x, x < 0x10000 → s.st.capa RPM = true → pid RPM 2 (env.pidRaw RPM) = .ok x →
      ∃ s', emit env s RPM 2 rpmScale = some s' ∧
        s'.out = s.out ++ [.Obd (env.clock s.clkIdx) RPM ((x * 5 / 2 : Nat) : Int) 0 0]) ∧
    (∀ x, 40 ≤ x → x < 0x100 → s.st.capa AIRTEMP = true →
      pid AIRTEMP 1 (env.pidRaw AIRTEMP) = .ok x →
      ∃ s', emit env s AIRTEMP 1 tempScale = some s' ∧
        s'.out = s.out ++ [.Obd (env.clock s.clkIdx) AIRTEMP (spec_temp x) 0 0]) ∧
    (∀ x, x < 0x100 → s.st.capa THROT = true → pid THROT 1 (env.pidRaw THROT) = .ok x →
      ∃ s', emit env s THROT 1 percScale = some s' ∧
        s'.out = s.out ++ [.Obd (env.clock s.clkIdx) THROT ((spec_perc x : Nat) : Int) 0 0]) := by
  refine ⟨?_, ?_, ?_⟩
  · intro x hx hcapa hpid
    refine ⟨_, emit_ok env s RPM 2 rpmScale x (x + x + x / 2) hcapa hpid rfl, ?_⟩
    have h25 : x + x + x / 2 = x * 5 / 2 := by omega
    have hsmall : x * 5 / 2 < 2 ^ 63 := by omega
    rw [h25, usizeToIsize_small _ hsmall]
  · intro x h40 hx hcapa hpid
    have happ : tempScale x = some ((x - 40) * 10) := by
      unfold tempScale
      rw [if_neg (by omega)]
    refine ⟨_, emit_ok env s AIRTEMP 1 tempScale x ((x - 40) * 10) hcapa hpid happ, ?_⟩
    have hsmall : (x - 40) * 10 < 2 ^ 63 := by omega
    simp only [usizeToIsize_small _ hsmall]
    have hval : (((x - 40) * 10 : Nat) : Int) = spec_temp x := by
      unfold spec_temp
      push_cast [h40]
      ring
    rw [hval]
  · intro x hx hcapa hpid
    refine ⟨_, emit_ok env s THROT 1 percScale x (perc x) hcapa hpid rfl, ?_⟩
    have hsmall : perc x < 2 ^ 63 := by
      have := perc_le_1000 x (by omega)
      omega
    simp only [usizeToIsize_small _ hsmall]
    rfl

theorem obd_scaling_amended_witness :
    ∃ s', emit c3env allCapaSess RPM 2 rpmScale = some s' ∧
      s'.out = allCapaSess.out ++
        [Info.Obd (c3env.clock allCapaSess.clkIdx) RPM ((1000 * 5 / 2 : Nat) : Int) 0 0] :=
  (obd_scaling_amended c3env allCapaSess).1 1000 (by decide) rfl rfl

/-! ## Underflowing scalings (C9) -/

def c9env : ObdEnv :=
  { clock := fun _ => 0, pidRaw := fun _ => .ok "1e", batteryRaw := .ok "12.4" }

/-- C9: the `(x - 40) * 10` temperature closures and the `val - 400`
catalyst scaling subtract in unsigned arithmetic; every in-range raw
value below 40 (resp. below 400) underflows, so the total embedding hits
its error branch (`none`, the checked-arithmetic panic) on in-range
inputs, and `emit` produces no sample there. -/
theorem temp_cata_underflow :
    (∀ x, x < 40 → tempScale x = none ∧ x < 0x100) ∧
    (∀ v, v < 400 → cataScale v = none ∧ v < 0x10000) ∧
    (∀ env s x, s.st.capa AIRTEMP = true → pid AIRTEMP 1 (env.pidRaw AIRTEMP) = .ok x →
      x < 40 → emit env s AIRTEMP 1 tempScale = none) := by
  refine ⟨?_, ?_, ?_⟩
  · intro x hx
    refine ⟨?_, by omega⟩
    unfold tempScale
    rw [if_pos hx]
  · intro v hv
    refine ⟨?_, by omega⟩
    unfold cataScale cata
    rw [if_pos (by omega : v < 40 * 10)]
  · intro env s x hcapa hpid hx
    have hnone : tempScale x = none := by
      unfold tempScale
      rw [if_pos hx]
    unfold emit
    rw [hcapa, hpid]
    simp [hnone]

theorem temp_cata_underflow_witness :
    emit c9env allCapaSess AIRTEMP 1 tempScale = none :=
  temp_cata_underflow.2.2 c9env allCapaSess 30 rfl rfl (by decide)

/-! ## Battery-failure fatality (C10) -/

def exceptErr {ε α : Type} : Except ε α → Bool
  | .error _ => true
  | .ok _ => false

/-- The only state change a failed (or skipped) `emit` can make is to the
crash flag. -/
def setCrash (s : Sess) (c : Bool) : Sess := { s with st := { s.st with crash := c } }

theorem errStep_emit (env : ObdEnv) (method bytes : Nat) (apply : Nat → Option Nat)
    (h : exceptErr (env.pidRaw method) = true) (s : Sess) :
    ∃ c, emit env s method bytes apply = some (setCrash s c) := by
  cases hraw : env.pidRaw method with
  | ok v =>
    rw [hraw] at h
    exact absurd h (by simp [exceptErr])
  | error e =>
    by_cases hc : s.st.capa method = true
    · refine ⟨method == RPM, ?_⟩
      simp [emit, hc, hraw, pid, setCrash]
    · refine ⟨s.st.crash, ?_⟩
      simp only [Bool.not_eq_true] at hc
      simp [emit, hc, setCrash]

theorem errStep_bind {g : Option Sess} {f : Sess → Option Sess} {s : Sess} {c : Bool}
    (hg : g = some (setCrash s c))
    (hf : ∀ u, ∃ c, f u = some (setCrash u c)) :
    ∃ c, g.bind f = some (setCrash s c) := by
  subst hg
  obtain ⟨c2, h2⟩ := hf (setCrash s c)
  exact ⟨c2, h2⟩

theorem errStep_basicpids (env : ObdEnv) (h : ∀ m, exceptErr (env.pidRaw m) = true)
    (s : Sess) : ∃ c, basicpids env s = some (setCrash s c) := by
  unfold basicpids
  obtain ⟨c1, h1⟩ := errStep_emit env RPM 2 rpmScale (h RPM) s
  refine errStep_bind h1 fun u => ?_
  obtain ⟨c2, h2⟩ := errStep_emit env THROT 1 percScale (h THROT) u
  refine errStep_bind h2 fun u => ?_
  obtain ⟨c3, h3⟩ := errStep_emit env ELOAD 1 percScale (h ELOAD) u
  exact errStep_bind h3 fun u => errStep_emit env SPEED 1 times10Scale (h SPEED) u

theorem errStep_temppids (env : ObdEnv) (h : ∀ m, exceptErr (env.pidRaw m) = true)
    (s : Sess) : ∃ c, temppids env s = some (setCrash s c) := by
  unfold temppids
  obtain ⟨c1, h1⟩ := errStep_emit env AIRTEMP 1 tempScale (h AIRTEMP) s
  refine errStep_bind h1 fun u => ?_
  obtain ⟨c2, h2⟩ := errStep_emit env ECTEMP 1 tempScale (h ECTEMP) u
  refine errStep_bind h2 fun u => ?_
  obtain ⟨c3, h3⟩ := errStep_emit env EGR 1 percScale (h EGR) u
  refine errStep_bind h3 fun u => ?_
  obtain ⟨c4, h4⟩ := errStep_emit env EEGR 1 eegrScale (h EEGR) u
  exact errStep_bind h4 fun u => errStep_emit env BPRESS 1 times10Scale (h BPRESS) u

theorem errStep_fuelpids (env : ObdEnv) (h : ∀ m, exceptErr (env.pidRaw m) = true)
    (s : Sess) : ∃ c, fuelpids env s = some (setCrash s c) := by
  unfold fuelpids
  obtain ⟨c1, h1⟩ := errStep_emit env FUEL 1 percScale (h FUEL) s
  refine errStep_bind h1 fun u => ?_
  obtain ⟨c2, h2⟩ := errStep_emit env FSTATUS 2 idScale (h FSTATUS) u
  refine errStep_bind h2 fun u => ?_
  obtain ⟨c3, h3⟩ := errStep_emit env SFTRIM1 1 percScale (h SFTRIM1) u
  refine errStep_bind h3 fun u => ?_
  obtain ⟨c4, h4⟩ := errStep_emit env LFTRIM1 1 percScale (h LFTRIM1) u
  refine errStep_bind h4 fun u => ?_
  obtain ⟨c5, h5⟩ := errStep_emit env SFTRIM2 1 percScale (h SFTRIM2) u
  exact errStep_bind h5 fun u => errStep_emit env LFTRIM2 1 percScale (h LFTRIM2) u

theorem errStep_extrapids (env : ObdEnv) (h : ∀ m, exceptErr (env.pidRaw m) = true)
    (s : Sess) : ∃ c, extrapids env s = some (setCrash s c) := by
  unfold extrapids
  obtain ⟨c1, h1⟩ := errStep_emit env TIMING 1 halfdegScale (h TIMING) s
  refine errStep_bind h1 fun u => ?_
  obtain ⟨c2, h2⟩ := errStep_emit env INTAKE 1 tempScale (h INTAKE) u
  refine errStep_bind h2 fun u => ?_
  obtain ⟨c3, h3⟩ := errStep_emit env MAFLOW 2 idScale (h MAFLOW) u
  refine errStep_bind h3 fun u => ?_
  obtain ⟨c4, h4⟩ := errStep_emit env FPRESSD 2 times10Scale (h FPRESSD) u
  refine errStep_bind h4 fun u => ?_
  obtain ⟨c5, h5⟩ := errStep_emit env FPRESSM 2 kpa10Scale (h FPRESSM) u
  exact errStep_bind h5 fun u => errStep_emit env EVAP 1 percScale (h EVAP) u

theorem errStep_catapids (env : ObdEnv) (h : ∀ m, exceptErr (env.pidRaw m) = true)
    (s : Sess) : ∃ c, catapids env s = some (setCrash s c) := by
  unfold catapids
  obtain ⟨c1, h1⟩ := errStep_emit env CATA1S1 2 cataScale (h CATA1S1) s
  refine errStep_bind h1 fun u => ?_
  obtain ⟨c2, h2⟩ := errStep_emit env CATA2S1 2 cataScale (h CATA2S1) u
  refine errStep_bind h2 fun u => ?_
  obtain ⟨c3, h3⟩ := errStep_emit env CATA1S2 2 cataScale (h CATA1S2) u
  exact errStep_bind h3 fun u => errStep_emit env CATA2S2 2 cataScale (h CATA2S2) u

theorem errStep_infopids (env : ObdEnv) (h : ∀ m, exceptErr (env.pidRaw m) = true)
    (s : Sess) : ∃ c, infopids env s = some (setCrash s c) := by
  unfold infopids
  obtain ⟨c1, h1⟩ := errStep_emit env RUNTIME 2 times10Scale (h RUNTIME) s
  refine errStep_bind h1 fun u => ?_
  obtain ⟨c2, h2⟩ := errStep_emit env MIL 2 times10Scale (h MIL) u
  exact errStep_bind h2 fun u => errStep_emit env WARMUPS 1 times10Scale (h WARMUPS) u

theorem errStep_guard {g : Sess → Option Sess}
    (hg : ∀ s, ∃ c, g s = some (setCrash s c)) (u : Sess) :
    ∃ c, (if u.st.rpm > 0 then g u else some u) = some (setCrash u c) := by
  by_cases hp : u.st.rpm > 0
  · rw [if_pos hp]
    exact hg u
  · rw [if_neg hp]
    exact ⟨u.st.crash, rfl⟩

theorem errStep_pollSequence (env : ObdEnv) (h : ∀ m, exceptErr (env.pidRaw m) = true)
    (s : Sess) : ∃ c, pollSequence env s = some (setCrash s c) := by
  unfold pollSequence
  obtain ⟨c1, h1⟩ := errStep_basicpids env h s
  refine errStep_bind h1 fun u => ?_
  obtain ⟨c2, h2⟩ := errStep_temppids env h u
  refine errStep_bind h2 fun u => ?_
  obtain ⟨c3, h3⟩ := errStep_basicpids env h u
  refine errStep_bind h3 fun u => ?_
  obtain ⟨c4, h4⟩ := errStep_guard (errStep_fuelpids env h) u
  refine errStep_bind h4 fun u => ?_
  obtain ⟨c5, h5⟩ := errStep_basicpids env h u
  refine errStep_bind h5 fun u => ?_
  obtain ⟨c6, h6⟩ := errStep_guard (errStep_extrapids env h) u
  refine errStep_bind h6 fun u => ?_
  obtain ⟨c7, h7⟩ := errStep_basicpids env h u
  refine errStep_bind h7 fun u => ?_
  obtain ⟨c8, h8⟩ := errStep_guard (errStep_catapids env h) u
  refine errStep_bind h8 fun u => ?_
  obtain ⟨c9, h9⟩ := errStep_basicpids env h u
  exact errStep_bind h9 fun u => errStep_guard (errStep_infopids env h) u

/-- C10: a failure of the battery-voltage read — an I/O or protocol
error from `get_pid_val("atrv")`, a reply trimmed to nothing, or a reply
that does not parse as a decimal number — makes `mainloop` return
immediately (`.error`, which discards the session and forces a full
reconnect), before any parameter is polled and with nothing emitted.  In
contrast, a failed non-RPM parameter read only writes the crash flag
(false for non-RPM methods) and the iteration completes (`.ok`, nothing
emitted); a failed RPM read sets the crash flag, which ends the session
at the next iteration's crash check. -/
theorem battery_failure_fatal :
    (∀ env s msg, env.batteryRaw = .error msg →
      mainloopIter env 0 s = .error (.batteryErr, s)) ∧
    (∀ env s r t, env.batteryRaw = .ok r → atClean r = .error t →
      mainloopIter env 0 s = .error (.batteryErr, s)) ∧
    (∀ env s r t, env.batteryRaw = .ok r → atClean r = .ok t → parseDec t = none →
      mainloopIter env 0 s = .error (.batteryParse, s)) ∧
    (∀ env s batwait, batwait ≠ 0 → s.st.crash = false →
      (∀ m, exceptErr (env.pidRaw m) = true) →
      ∃ s', mainloopIter env batwait s = .ok ((batwait + 1) % 5, s') ∧ s'.out = s.out) ∧
    (∀ env (s : Sess) m b f, m ≠ RPM → s.st.capa m = true →
      exceptErr (env.pidRaw m) = true →
      emit env s m b f = some (setCrash s false)) ∧
    (∀ env (s : Sess) b f, s.st.capa RPM = true → exceptErr (env.pidRaw RPM) = true →
      emit env s RPM b f = some (setCrash s true)) ∧
    (∀ env s batwait, batwait ≠ 0 → s.st.crash = true →
      mainloopIter env batwait s = .error (.crashed, s)) := by
  refine ⟨?_, ?_, ?_, ?_, ?_, ?_, ?_⟩
  · intro env s msg hraw
    simp [mainloopIter, batteryStep, batteryRead, hraw]
  · intro env s r t hraw hclean
    simp [mainloopIter, batteryStep, batteryRead, hraw, hclean]
  · intro env s r t hraw hclean hparse
    simp [mainloopIter, batteryStep, batteryRead, hraw, hclean, hparse]
  · intro env s batwait hbw hcrash hpids
    obtain ⟨c, hc⟩ := errStep_pollSequence env hpids s
    refine ⟨setCrash s c, ?_, rfl⟩
    simp [mainloopIter, hbw, hcrash, hc]
  · intro env s m b f hm hcapa herr
    cases hraw : env.pidRaw m with
    | ok v =>
      rw [hraw] at herr
      exact absurd herr (by simp [exceptErr])
    | error e =>
      have hbeq : (m == RPM) = false := by
        simpa using hm
      simp [emit, hcapa, hraw, pid, setCrash, hbeq]
  · intro env s b f hcapa herr
    cases hraw : env.pidRaw RPM with
    | ok v =>
      rw [hraw] at herr
      exact absurd herr (by simp [exceptErr])
    | error e =>
      simp [emit, hcapa, hraw, pid, setCrash]
  · intro env s batwait hbw hcrash
    simp [mainloopIter, hbw, hcrash]

def c10env : ObdEnv :=
  { clock := fun _ => 0, pidRaw := fun _ => .error "io", batteryRaw := .error "io" }

theorem battery_failure_fatal_witness :
    mainloopIter c10env 0 allCapaSess = .error (.batteryErr, allCapaSess) :=
  battery_failure_fatal.1 c10env allCapaSess "io" rfl

/-! ## Persistence engine (`buffer.rs`)

One receive-iteration of `buffer::main`'s `loop` (buffer.rs 32-125) is
modelled as a step function over the explicit state (the batch `buf` and
the `elaps` boundary), with an environment supplying what the iteration
observes: the elapsed-seconds clock at the flush check (line 44) and
during the boundary catch-up loop (lines 100-105, taken as one sample),
how many file-create attempts fail before one succeeds, and whether
serialization and the rename succeed.  The filenames (`lastt`/`lastc`
derived) carry no state and are not modelled.  A panic (`expect`,
`panic!` after the create retries) kills the component and is `.error`;
otherwise the step returns the new state, the records serialized to disk
this iteration, and the `Usr` control events sent back to the
dispatcher. -/

def SECONDS : Nat := 60
def MAXELEMS : Nat := 115

structure BufSt where
  buf : List Info
  elaps : Nat

def bufInit : BufSt := { buf := [], elaps := SECONDS }

structure BufEnv where
  elapsedAtCheck : Nat
  elapsedAtUpdate : Nat
  createFailures : Nat
  writeOk : Bool
  renameOk : Bool

inductive BufExit where
  | createPanic
  | writePanic
  deriving DecidableEq, Repr

def isUsr : Info → Bool
  | .Usr _ => true
  | _ => false

/-- The boundary catch-up loop (buffer.rs 100-105): repeatedly add
`SECONDS` until the boundary strictly exceeds the elapsed clock `e2`. -/
def nextBoundary (elaps e2 : Nat) : Nat :=
  if e2 < elaps + SECONDS then elaps + SECONDS
  else nextBoundary (elaps + SECONDS) e2
termination_by e2 - elaps
decreasing_by
  have hS : SECONDS = 60 := rfl
  omega

theorem nextBoundary_gt (elaps e2 : Nat) : e2 < nextBoundary elaps e2 := by
  unfold nextBoundary
  split
  case isTrue h => exact h
  case isFalse h => exact nextBoundary_gt (elaps + SECONDS) e2
termination_by e2 - elaps
decreasing_by
  have hS : SECONDS = 60 := rfl
  omega

/-- One receive-iteration of `buffer::main`.  A `Usr` event is skipped
entirely (line 41); any other event is pushed; if the elapsed clock has
reached the boundary, the batch is flushed: the file is created (panic
after 6 failed attempts, lines 58-81), the batch is serialized (panic on
write error, line 94) and cleared (line 96), the boundary is advanced
(lines 100-105), the rename result is only logged (lines 107-115), and
the two sync control events are sent (lines 119-124). -/
def bufferStep (env : BufEnv) (st : BufSt) (ev : Info) :
    Except (BufExit × BufSt) (BufSt × List Info × List Info) :=
  match ev with
  | .Usr _ => .ok (st, [], [])
  | _ =>
    if env.elapsedAtCheck < st.elaps then .ok ({ st with buf := st.buf ++ [ev] }, [], [])
    else if 6 ≤ env.createFailures then .error (.createPanic, { st with buf := st.buf ++ [ev] })
    else if !env.writeOk then .error (.writePanic, { st with buf := st.buf ++ [ev] })
    else .ok ({ buf := [], elaps := nextBoundary st.elaps env.elapsedAtUpdate },
              st.buf ++ [ev], [.Usr true, .Usr false])

theorem bufferStep_usr (env : BufEnv) (st : BufSt) (b : Bool) :
    bufferStep env st (.Usr b) = .ok (st, [], []) := rfl

theorem bufferStep_data (env : BufEnv) (st : BufSt) (ev : Info) (hus : isUsr ev = false) :
    bufferStep env st ev =
      (if env.elapsedAtCheck < st.elaps then .ok ({ st with buf := st.buf ++ [ev] }, [], [])
       else if 6 ≤ env.createFailures then
         .error (.createPanic, { st with buf := st.buf ++ [ev] })
       else if !env.writeOk then .error (.writePanic, { st with buf := st.buf ++ [ev] })
       else .ok ({ buf := [], elaps := nextBoundary st.elaps env.elapsedAtUpdate },
                 st.buf ++ [ev], [.Usr true, .Usr false])) := by
  cases ev with
  | Usr b => simp [isUsr] at hus
  | Gps t ts alt track speed => rfl
  | Pos t lat lon => rfl
  | Obd t pid val extra extra2 => rfl
  | Imu t mag acc rot => rfl

/-- Every `.ok` outcome of a non-`Usr` step: either no flush happened
(push only) or a flush happened (batch cleared, pushed batch written,
sync events sent). -/
theorem bufferStep_ok_cases (env : BufEnv) (st : BufSt) (ev : Info)
    (st' : BufSt) (w c : List Info) (hus : isUsr ev = false)
    (h : bufferStep env st ev = .ok (st', w, c)) :
    (env.elapsedAtCheck < st.elaps ∧ st' = { st with buf := st.buf ++ [ev] } ∧
      w = [] ∧ c = []) ∨
    (st.elaps ≤ env.elapsedAtCheck ∧
      st' = { buf := [], elaps := nextBoundary st.elaps env.elapsedAtUpdate } ∧
      w = st.buf ++ [ev] ∧ c = [.Usr true, .Usr false]) := by
  rw [bufferStep_data env st ev hus] at h
  by_cases h1 : env.elapsedAtCheck < st.elaps
  · rw [if_pos h1] at h
    simp only [Except.ok.injEq, Prod.mk.injEq] at h
    exact Or.inl ⟨h1, h.1.symm, h.2.1.symm, h.2.2.symm⟩
  · rw [if_neg h1] at h
    by_cases h6 : 6 ≤ env.createFailures
    · rw [if_pos h6] at h
      exact absurd h (by simp)
    · rw [if_neg h6] at h
      by_cases hw : env.writeOk
      · rw [if_neg (by simp [hw] : ¬(!env.writeOk) = true)] at h
        simp only [Except.ok.injEq, Prod.mk.injEq] at h
        exact Or.inr ⟨Nat.le_of_not_lt h1, h.1.symm, h.2.1.symm, h.2.2.symm⟩
      · rw [if_pos (by simp [Bool.not_eq_true] at hw ⊢; exact hw)] at h
        exact absurd h (by simp)

/-- C5: whenever a flush is triggered (non-`Usr` event at or past the
boundary) and the component survives the iteration, the in-memory batch
is empty afterwards — in particular also when the rename into the final
name fails (`renameOk` is unconstrained, and the second conjunct shows
the flush completes normally for any rename outcome); the two failure
modes that skip the clearing (create panic, write panic) kill the
component, so no next event is accepted. -/
theorem flush_clears_batch :
    (∀ env st ev st' w c, isUsr ev = false → st.elaps ≤ env.elapsedAtCheck →
      bufferStep env st ev = .ok (st', w, c) → st'.buf = []) ∧
    (∀ env st ev, isUsr ev = false → st.elaps ≤ env.elapsedAtCheck →
      env.createFailures < 6 → env.writeOk = true →
      bufferStep env st ev =
        .ok ({ buf := [], elaps := nextBoundary st.elaps env.elapsedAtUpdate },
             st.buf ++ [ev], [.Usr true, .Usr false])) := by
  constructor
  · intro env st ev st' w c hus hle h
    rcases bufferStep_ok_cases env st ev st' w c hus h with ⟨hlt, _, _, _⟩ | ⟨_, hst, _, _⟩
    · omega
    · rw [hst]
  · intro env st ev hus hle h6 hw
    rw [bufferStep_data env st ev hus]
    rw [if_neg (by omega), if_neg (by omega), if_neg (by simp [hw])]

def ev0 : Info := .Obd 1 RPM 2500 0 0
def ev1 : Info := .Pos 2 none none
def bufSt0 : BufSt := { buf := [ev0], elaps := 60 }
def bufEnvOk : BufEnv :=
  { elapsedAtCheck := 60, elapsedAtUpdate := 61, createFailures := 0,
    writeOk := true, renameOk := false }

theorem flush_clears_batch_witness :
    bufferStep bufEnvOk bufSt0 ev1 =
      .ok ({ buf := [], elaps := nextBoundary bufSt0.elaps bufEnvOk.elapsedAtUpdate },
           bufSt0.buf ++ [ev1], [.Usr true, .Usr false]) :=
  flush_clears_batch.2 bufEnvOk bufSt0 ev1 rfl (by decide) (by decide) rfl

/-- C6: the boundary starts at 60 seconds; a flush is triggered only
once the elapsed clock has reached the boundary (below it the event is
only pushed); and after a flush the new boundary is the catch-up loop's
result, which strictly exceeds the elapsed clock, so it never regresses
below it. -/
theorem flush_cadence :
    bufInit.elaps = 60 ∧
    (∀ env st ev, isUsr ev = false → env.elapsedAtCheck < st.elaps →
      bufferStep env st ev = .ok ({ st with buf := st.buf ++ [ev] }, [], [])) ∧
    (∀ env st ev st' w c, isUsr ev = false → st.elaps ≤ env.elapsedAtCheck →
      bufferStep env st ev = .ok (st', w, c) →
      st'.elaps = nextBoundary st.elaps env.elapsedAtUpdate ∧
      env.elapsedAtUpdate < st'.elaps) := by
  refine ⟨rfl, ?_, ?_⟩
  · intro env st ev hus hlt
    rw [bufferStep_data env st ev hus, if_pos hlt]
  · intro env st ev st' w c hus hle h
    rcases bufferStep_ok_cases env st ev st' w c hus h with ⟨hlt, _, _, _⟩ | ⟨_, hst, _, _⟩
    · omega
    · rw [hst]
      exact ⟨rfl, nextBoundary_gt st.elaps env.elapsedAtUpdate⟩

theorem flush_cadence_witness :
    BufSt.elaps { buf := [], elaps := nextBoundary bufSt0.elaps bufEnvOk.elapsedAtUpdate } =
      nextBoundary bufSt0.elaps bufEnvOk.elapsedAtUpdate ∧
    bufEnvOk.elapsedAtUpdate <
      BufSt.elaps { buf := [], elaps := nextBoundary bufSt0.elaps bufEnvOk.elapsedAtUpdate } :=
  flush_cadence.2.2 bufEnvOk bufSt0 ev1
    { buf := [], elaps := nextBoundary bufSt0.elaps bufEnvOk.elapsedAtUpdate }
    (bufSt0.buf ++ [ev1]) [.Usr true, .Usr false] rfl (by decide) rfl

/-- C7: a `Usr` event is never appended (the iteration skips it
entirely); every other variant is appended (it ends up either in the
batch or, if this receive triggered the flush, in the written records);
and a batch free of `Usr` records stays free of them, as does everything
written to disk. -/
theorem no_usr_persisted :
    (∀ env st b, bufferStep env st (.Usr b) = .ok (st, [], [])) ∧
    (∀ env st ev st' w c, isUsr ev = false → bufferStep env st ev = .ok (st', w, c) →
      (st'.buf = st.buf ++ [ev] ∧ w = []) ∨ (st'.buf = [] ∧ w = st.buf ++ [ev])) ∧
    (∀ env st ev st' w c, (∀ e ∈ st.buf, isUsr e = false) →
      bufferStep env st ev = .ok (st', w, c) →
      (∀ e ∈ st'.buf, isUsr e = false) ∧ (∀ e ∈ w, isUsr e = false)) := by
  refine ⟨bufferStep_usr, ?_, ?_⟩
  · intro env st ev st' w c hus h
    rcases bufferStep_ok_cases env st ev st' w c hus h with ⟨_, hst, hw, _⟩ | ⟨_, hst, hw, _⟩
    · exact Or.inl ⟨by rw [hst], hw⟩
    · exact Or.inr ⟨by rw [hst], hw⟩
  · intro env st ev st' w c hbuf h
    cases husr : isUsr ev with
    | true =>
      cases ev with
      | Usr b =>
        rw [bufferStep_usr] at h
        simp only [Except.ok.injEq, Prod.mk.injEq] at h
        rw [← h.1, ← h.2.1]
        exact ⟨hbuf, by simp⟩
      | Gps t ts alt track speed => simp [isUsr] at husr
      | Pos t lat lon => simp [isUsr] at husr
      | Obd t pid val extra extra2 => simp [isUsr] at husr
      | Imu t mag acc rot => simp [isUsr] at husr
    | false =>
      have hext : ∀ e ∈ st.buf ++ [ev], isUsr e = false := by
        intro e he
        rcases List.mem_append.mp he with h1 | h1
        · exact hbuf e h1
        · rw [List.mem_singleton.mp h1]
          exact husr
      rcases bufferStep_ok_cases env st ev st' w c husr h with
        ⟨_, hst, hw, _⟩ | ⟨_, hst, hw, _⟩
      · rw [hst, hw]
        exact ⟨hext, by simp⟩
      · rw [hst, hw]
        exact ⟨by simp, hext⟩

theorem no_usr_persisted_witness :
    bufferStep bufEnvOk bufSt0 (.Usr true) = .ok (bufSt0, [], []) :=
  no_usr_persisted.1 bufEnvOk bufSt0 true

/-! ## The main dispatcher's forwarding (`main.rs` 137-162 and 239-344)

The dispatcher's receive-and-forward behaviour on a finite prefix of the
aggregate stream, with the display side effects abstracted away.  The
startup loop consumes events until a zero-valued trouble sample, which
`break`s out *without* forwarding it; a non-zero trouble sample is
forwarded re-created with zeroed extra fields (line 156); anything else
is forwarded verbatim (line 159).  After the break, the main loop
forwards every received event verbatim (line 343). -/

/-- How the startup loop forwards one (non-terminator) event. -/
def startupMap : Info → Info
  | .Obd t p v e1 e2 => if p = TROUBLE then .Obd t p v 0 0 else .Obd t p v e1 e2
  | ev => ev

/-- The zero-valued trouble sample that ends the startup phase. -/
def isTroubleTerm : Info → Bool
  | .Obd _ p v _ _ => p == TROUBLE && v == 0
  | _ => false

def dispatch : List Info → List Info
  | [] => []
  | .Obd t p v e1 e2 :: rest =>
    if p = TROUBLE then
      (if v = 0 then rest else .Obd t p v 0 0 :: dispatch rest)
    else .Obd t p v e1 e2 :: dispatch rest
  | .Usr b :: rest => .Usr b :: dispatch rest
  | .Gps t ts alt track speed :: rest => .Gps t ts alt track speed :: dispatch rest
  | .Pos t lat lon :: rest => .Pos t lat lon :: dispatch rest
  | .Imu t mag acc rot :: rest => .Imu t mag acc rot :: dispatch rest

/-- C2, counterexample: the zero-valued trouble terminator received
during startup is consumed by the `break` and never forwarded — one
event in, zero events out. -/
theorem dispatch_drop_counterexample :
    dispatch [Info.Obd 5 TROUBLE 0 0 0] = [] ∧
    ([] : List Info) ≠ [Info.Obd 5 TROUBLE 0 0 0] := by
  constructor
  · rfl
  · simp

/-- C2 (amended): every received event except the first zero-valued
trouble terminator is forwarded in order: before the terminator,
trouble samples are forwarded with their extra fields zeroed and
everything else verbatim (`startupMap`); the terminator itself is
consumed and not forwarded; everything after it is forwarded verbatim.
A stream with no terminator is forwarded entirely through `startupMap`. -/
theorem dispatch_forwarding :
    (∀ evs : List Info, (∀ ev ∈ evs, isTroubleTerm ev = false) →
      dispatch evs = evs.map startupMap) ∧
    (∀ (pre post : List Info) (t : Nat) (e1 e2 : Int),
      (∀ ev ∈ pre, isTroubleTerm ev = false) →
      dispatch (pre ++ .Obd t TROUBLE 0 e1 e2 :: post) = pre.map startupMap ++ post) ∧
    (∀ ev : Info, startupMap ev = ev ∨
      ∃ t v e1 e2, ev = .Obd t TROUBLE v e1 e2 ∧ startupMap ev = .Obd t TROUBLE v 0 0) := by
  have hnoterm : ∀ evs : List Info, (∀ ev ∈ evs, isTroubleTerm ev = false) →
      dispatch evs = evs.map startupMap := by
    intro evs
    induction evs with
    | nil => intro _; rfl
    | cons ev rest ih =>
      intro h
      have hrest := ih (fun e he => h e (List.mem_cons_of_mem ev he))
      have hev := h ev (List.mem_cons_self ev rest)
      cases ev with
      | Obd t p v e1 e2 =>
        simp only [isTroubleTerm, Bool.and_eq_true, beq_iff_eq] at hev
        by_cases hp : p = TROUBLE
        · have hv : ¬v = 0 := by
            intro hv
            rw [hp, hv] at hev
            simp at hev
          simp [dispatch, startupMap, hp, hv, hrest]
        · simp [dispatch, startupMap, hp, hrest]
      | Usr b => simp [dispatch, startupMap, hrest]
      | Gps t ts alt track speed => simp [dispatch, startupMap, hrest]
      | Pos t lat lon => simp [dispatch, startupMap, hrest]
      | Imu t mag acc rot => simp [dispatch, startupMap, hrest]
  refine ⟨hnoterm, ?_, ?_⟩
  · intro pre post t e1 e2 hpre
    induction pre with
    | nil => simp [dispatch]
    | cons ev rest ih =>
      have hrest := ih (fun e he => hpre e (List.mem_cons_of_mem ev he))
      have hev := hpre ev (List.mem_cons_self ev rest)
      cases ev with
      | Obd t' p v e1' e2' =>
        simp only [isTroubleTerm, Bool.and_eq_true, beq_iff_eq] at hev
        by_cases hp : p = TROUBLE
        · have hv : ¬v = 0 := by
            intro hv
            rw [hp, hv] at hev
            simp at hev
          simp [dispatch, startupMap, hp, hv, hrest]
        · simp [dispatch, startupMap, hp, hrest]
      | Usr b => simp [dispatch, startupMap, hrest]
      | Gps t' ts alt track speed => simp [dispatch, startupMap, hrest]
      | Pos t' lat lon => simp [dispatch, startupMap, hrest]
      | Imu t' mag acc rot => simp [dispatch, startupMap, hrest]
  · intro ev
    cases ev with
    | Obd t p v e1 e2 =>
      by_cases hp : p = TROUBLE
      · subst hp
        exact Or.inr ⟨t, v, e1, e2, rfl, by simp [startupMap]⟩
      · exact Or.inl (by simp [startupMap, hp])
    | Usr b => exact Or.inl rfl
    | Gps t ts alt track speed => exact Or.inl rfl
    | Pos t lat lon => exact Or.inl rfl
    | Imu t mag acc rot => exact Or.inl rfl

theorem dispatch_forwarding_witness :
    dispatch [Info.Obd 1 TROUBLE 173 7 8, Info.Gps 2 3 4 5 6] =
      [Info.Obd 1 TROUBLE 173 7 8, Info.Gps 2 3 4 5 6].map startupMap :=
  dispatch_forwarding.1 [Info.Obd 1 TROUBLE 173 7 8, Info.Gps 2 3 4 5 6] (by decide)

/-! ## GPS producer (`gpsd.rs` 88-165)

`emit` receives the TPV record's interior (the bytes between the braces,
starting with the `"class"` field's opening quote), splits it on `,"`,
scans the fields, and sends one `Gps` event followed by one `Pos` event.
The `time` branch's calendar conversion is the external `time` crate's
`Tm::to_timespec`; it is supplied as the oracle `tp` (`none` models the
`year >= 2016` guard failing, in which case `t` is left alone); its
`&fld[7..31]` slice panics when the field is shorter than 31 bytes.  The
two `::clock()` readings are `c1`/`c2`. -/

structure TpvAcc where
  t : Int
  lat : Option ℚ
  lon : Option ℚ
  alt : Int
  track : Int
  speed : Int

/-- `str::split(",\"")`: cut the byte stream at every (non-overlapping,
leftmost) comma-quote pair. -/
def splitCommaQuote : List Char → List (List Char)
  | [] => [[]]
  | ',' :: '"' :: rest => [] :: splitCommaQuote rest
  | c :: rest =>
    match splitCommaQuote rest with
    | [] => [[c]]
    | p :: ps => (c :: p) :: ps

/-- One field of the comma-quote-split TPV record (gpsd.rs 97-148);
`none` is a panic (`expect` on an unparseable value, or the
out-of-bounds `&fld[7..31]` slice of a short `time` field). -/
def tpvField (tp : List Char → Option Int) (acc : TpvAcc) (fld : List Char) : Option TpvAcc :=
  if "time\":\"".data.isPrefixOf fld then
    if fld.length < 31 then none
    else some { acc with t := (tp fld).getD acc.t }
  else if "lat\":".data.isPrefixOf fld then
    match parseDecL (fld.drop 5) with
    | none => none
    | some q => some { acc with lat := some q }
  else if "lon\":".data.isPrefixOf fld then
    match parseDecL (fld.drop 5) with
    | none => none
    | some q => some { acc with lon := some q }
  else if "alt\":".data.isPrefixOf fld then
    match parseDecL (fld.drop 5) with
    | none => none
    | some q => some { acc with alt := ratTrunc q }
  else if "track\":".data.isPrefixOf fld then
    match parseDecL (fld.drop 7) with
    | none => none
    | some q => some { acc with track := ratTrunc q }
  else if "speed\":".data.isPrefixOf fld then
    match parseDecL (fld.drop 7) with
    | none => none
    | some q => some { acc with speed := ratTrunc ((Int.floor (q * 36) : ℚ) / 10) }
  else some acc

/-- `gpsd::emit` (gpsd.rs 88-165): fold the fields from the defaults
(`t = 0`, `NaN` position, `-1` sentinels), then send `Gps` and `Pos`. -/
def gpsdEmit (tp : List Char → Option Int) (c1 c2 : Nat) (buf : String) : Option (List Info) :=
  match (splitCommaQuote buf.data).foldlM (tpvField tp)
      { t := 0, lat := none, lon := none, alt := -1, track := -1, speed := -1 } with
  | none => none
  | some acc =>
    some [.Gps c1 (acc.t % 2 ^ 64).toNat acc.alt acc.track acc.speed,
          .Pos c2 acc.lat acc.lon]

def tpvLine : String :=
  "\"class\":\"TPV\",\"lat\":45.0,\"lon\":9.0,\"track\":90,\"speed\":138,\"alt\":120"

/-- Symbolic evaluation of the scenario: the fold runs through the six
fields, and the emitted events carry the raw rational expressions the
parser builds. -/
theorem gps_tpv_eval :
    gpsdEmit (fun _ => none) 0 0 tpvLine =
      some [.Gps 0 0 (ratTrunc (1 * ((120 : Nat) : ℚ))) (ratTrunc (1 * ((90 : Nat) : ℚ)))
              (ratTrunc (((Int.floor ((1 * ((138 : Nat) : ℚ)) * 36) : Int) : ℚ) / 10)),
            .Pos 0 (some (1 * (((45 : Nat) : ℚ) + ((0 : Nat) : ℚ) / (10 : ℚ) ^ 1)))
                   (some (1 * (((9 : Nat) : ℚ) + ((0 : Nat) : ℚ) / (10 : ℚ) ^ 1)))] := rfl

theorem ratTrunc_natCast (n : Nat) : ratTrunc (1 * (n : ℚ)) = n := by
  unfold ratTrunc
  rw [one_mul, if_neg (not_lt.mpr (by positivity))]
  exact Int.floor_natCast n

/-- C8, counterexample: on the claimed TPV line (`speed` field literally
138), the producer emits `speed = 496`, not the claimed 49: the code
computes `(138 × 36).floor / 10 = 496` in tenths of km/h (the claimed 49
corresponds to a 13.8 m/s reading, not 138). -/
theorem gps_speed_counterexample :
    gpsdEmit (fun _ => none) 0 0 tpvLine ≠
      some [Info.Gps 0 0 120 90 49, Info.Pos 0 (some 45) (some 9)] := by
  rw [gps_tpv_eval]
  intro h
  simp only [Option.some.injEq, List.cons.injEq, Info.Gps.injEq] at h
  have hspeed := h.1.2.2.2.2
  rw [show ((Int.floor ((1 * ((138 : Nat) : ℚ)) * 36) : Int) : ℚ) = 4968 by norm_num] at hspeed
  have h496 : ratTrunc ((4968 : ℚ) / 10) = 496 := by
    unfold ratTrunc
    rw [if_neg (by norm_num), Int.floor_eq_iff]
    norm_num
  rw [h496] at hspeed
  exact absurd hspeed (by norm_num)

/-- C8 (amended): a gpsd TPV line carrying `lat=45.0, lon=9.0, track=90,
speed=138, alt=120` yields a `Gps` event with `alt = 120`, `track = 90`
and `speed = 496` (the floor of the 138 m/s reading × 3.6, in tenths of
km/h), followed by a `Pos` event with `lat = 45.0`, `lon = 9.0`. -/
theorem gps_tpv_scenario :
    gpsdEmit (fun _ => none) 0 0 tpvLine =
      some [Info.Gps 0 0 120 90 496, Info.Pos 0 (some 45) (some 9)] := by
  rw [gps_tpv_eval, ratTrunc_natCast 120, ratTrunc_natCast 90]
  have hspeed : ratTrunc (((Int.floor ((1 * ((138 : Nat) : ℚ)) * 36) : Int) : ℚ) / 10) = 496 := by
    rw [show ((Int.floor ((1 * ((138 : Nat) : ℚ)) * 36) : Int) : ℚ) = 4968 by norm_num]
    unfold ratTrunc
    rw [if_neg (by norm_num), Int.floor_eq_iff]
    norm_num
  rw [hspeed]
  norm_num

end Punto
